import Mathlib

/-! Verification of the DQN agent in `Agents.py` (class `ShipNet` and class
`Ship`): replay buffer, epsilon-greedy action selection, double-DQN
target computation, hard sync schedule, and checkpoint round-trip.

Modelling conventions (shallow embedding of the Python source):
* Python floats are modelled as rationals (`ℚ`); the claims under study
  are about the algebraic structure of the computations, not rounding.
* A network parameter tensor is modelled as a value together with its
  `requires_grad` flag; the convolutional architecture itself is opaque
  (per the spec), so forward evaluation is an oracle
  `ev : List ℚ → List ℚ → List ℚ` mapping (parameter values, input) to
  the output Q-vector.
* Randomness (`np.random.rand`, `np.random.randint`, `random.sample`)
  is modelled by explicit oracle arguments.
* Python exceptions are modelled with `Except String`.
-/

namespace SpaceInvaders

/-- One sampled parameter tensor of the network: its (flattened) value and
its `requires_grad` flag. -/
structure ParamTensor where
  value : ℚ
  requiresGrad : Bool
deriving DecidableEq, Repr

/-- A stored experience `(state, next_state, action, reward, done)`
(`Ship.cache` wraps these into tensors; the wrapping is value-preserving). -/
structure Transition where
  state : List ℚ
  nextState : List ℚ
  action : Int
  reward : ℚ
  done : Bool
deriving DecidableEq, Repr

instance : Inhabited Transition := ⟨⟨[], [], 0, 0, false⟩⟩

/-- The two parameter sets of `ShipNet`: the online network and the target
network (`self.online`, `self.target`). -/
structure ShipNet where
  online : List ParamTensor
  target : List ParamTensor
deriving DecidableEq, Repr

/-- Model of `ShipNet.__init__`: checks the input height and width are 84 (raising
`ValueError` otherwise), builds the online parameters, and deep-copies them
into the target parameters whose `requires_grad` is then set to `False`. -/
def ShipNet.init (c h w outputDim : Nat) (onlineInit : List ℚ) :
    Except String ShipNet :=
  if h ≠ 84 then
    Except.error ("Expecting input height: 84, got: " ++ toString h)
  else if w ≠ 84 then
    Except.error ("Expecting input width: 84, got: " ++ toString w)
  else
    Except.ok
      { online := onlineInit.map (fun v => { value := v, requiresGrad := true })
        target := onlineInit.map (fun v => { value := v, requiresGrad := false }) }

/-- The values of the online parameters (the online `state_dict`). -/
def ShipNet.onlineValues (n : ShipNet) : List ℚ :=
  n.online.map (·.value)

/-- The values of the target parameters (the target `state_dict`). -/
def ShipNet.targetValues (n : ShipNet) : List ℚ :=
  n.target.map (·.value)

/-- Model of `ShipNet.forward`: dispatches on the `model` string; any other mode
falls through (Python returns `None`). The evaluation of the (opaque)
convolutional stack is the oracle `ev`. -/
def ShipNet.forward (n : ShipNet) (model : String)
    (ev : List ℚ → List ℚ → List ℚ) (input : List ℚ) : Option (List ℚ) :=
  if model = "online" then some (ev n.onlineValues input)
  else if model = "target" then some (ev n.targetValues input)
  else none

/-- Model of `torch.argmax` over a vector: index of the first occurrence of the
maximal entry (0 on the empty vector). -/
def argmaxIdx : List ℚ → Nat
  | [] => 0
  | [_] => 0
  | x :: y :: rest =>
    let r := argmaxIdx (y :: rest)
    if x < (y :: rest).getD r 0 then r + 1 else 0

/-- Model of `collections.deque(maxlen=cap).append`: append on the right, evicting
the oldest (leftmost) element when the deque is at capacity. -/
def dequeAppend (cap : Nat) (mem : List Transition) (t : Transition) :
    List Transition :=
  if mem.length < cap then mem ++ [t] else mem.drop 1 ++ [t]

/-- The agent state of class `Ship` (fields set in `Ship.__init__`).
`optimizerLr` records the learning rate the Adam optimizer currently
holds (`__init__` builds it from `lr`; `load` rebuilds it from the
checkpoint's `lr`). -/
structure Ship where
  stateDim : Nat × Nat × Nat
  actionDim : Nat
  saveDir : String
  lr : ℚ
  net : ShipNet
  explorationRate : ℚ
  explorationRateDecay : ℚ
  explorationRateMin : ℚ
  currStep : Nat
  saveEvery : Nat
  memory : List Transition
  batchSize : Nat
  Q : Option ℚ
  gamma : ℚ
  loss : ℚ
  optimizerLr : ℚ
  burnIn : Nat
  learnEvery : Nat
  syncEvery : Nat
deriving DecidableEq, Repr

/-- Model of `Ship.act`: epsilon-greedy selection. `u` models `np.random.rand()`
and `randA` models `np.random.randint(self.action_dim)`; `ev` is the
online network evaluation. Returns the updated agent, the chosen action
and the reported `action_values` (a 1×k row matrix). The sentinel
`torch.tensor([[1,1,1,1,1,1]])` is returned whenever the explore branch
is taken. -/
def Ship.act (a : Ship) (u : ℚ) (randA : Nat)
    (ev : List ℚ → List ℚ → List ℚ) (state : List ℚ) :
    Ship × Nat × List (List ℚ) :=
  let sentinel : List (List ℚ) := [[1, 1, 1, 1, 1, 1]]
  let chosen : Nat × List (List ℚ) :=
    if u < a.explorationRate then
      (randA, sentinel)
    else
      let actionValues := ev a.net.onlineValues state
      (argmaxIdx actionValues, [actionValues])
  let decayed := a.explorationRate * a.explorationRateDecay
  let clamped := max a.explorationRateMin decayed
  ({ a with explorationRate := clamped, currStep := a.currStep + 1 },
    chosen.1, chosen.2)

/-- Model of `Ship.cache`: store the transition in `self.memory`, a
`deque(maxlen=1000)`. -/
def Ship.cache (a : Ship) (t : Transition) : Ship :=
  { a with memory := dequeAppend 1000 a.memory t }

/-- Iterated `Ship.cache` over a sequence of transitions, oldest first. -/
def Ship.cacheAll (a : Ship) (ts : List Transition) : Ship :=
  ts.foldl Ship.cache a

/-- The index choice `random.sample` made, as an oracle: if the supplied
indices form a valid without-replacement draw of `k` indices into a
population of size `n`, use them; otherwise fall back to the first `k`
indices (any valid draw). -/
def sampleIndices (n k : Nat) (idxs : List Nat) : List Nat :=
  if idxs.length = k ∧ idxs.Nodup ∧ ∀ i ∈ idxs, i < n then idxs
  else List.range k

/-- Model of `random.sample(mem, k)`: raises `ValueError` when the population is
smaller than the sample size; otherwise returns `k` distinct stored
elements (the draw itself given by the `idxs` oracle). -/
def randomSample (mem : List Transition) (k : Nat) (idxs : List Nat) :
    Except String (List Transition) :=
  if k ≤ mem.length then
    Except.ok ((sampleIndices mem.length k idxs).map (fun i => mem.getD i default))
  else
    Except.error "Sample larger than population or is negative"

/-- The per-field stacking produced by
`map(torch.stack, zip(*batch))` in `Ship.recall`. -/
structure Batch where
  states : List (List ℚ)
  nextStates : List (List ℚ)
  actions : List Int
  rewards : List ℚ
  dones : List Bool
deriving DecidableEq, Repr

/-- Stack a list of transitions per field. -/
def stackBatch (l : List Transition) : Batch :=
  { states := l.map (·.state)
    nextStates := l.map (·.nextState)
    actions := l.map (·.action)
    rewards := l.map (·.reward)
    dones := l.map (·.done) }

/-- Model of `Ship.recall`: sample `batch_size` experiences from memory and stack
them per field. -/
def Ship.recall (a : Ship) (idxs : List Nat) : Except String Batch :=
  (randomSample a.memory a.batchSize idxs).map stackBatch

/-- Model of `Ship.td_estimate`: the online network's predicted value of the action
actually taken, per transition of the batch. -/
def Ship.tdEstimate (ev : List ℚ → List ℚ → List ℚ) (a : Ship)
    (states : List (List ℚ)) (actions : List Int) : List ℚ :=
  List.zipWith (fun s act => (ev a.net.onlineValues s).getD act.toNat 0)
    states actions

/-- Row-wise double-DQN target: for each transition, pick
`best_action = argmax` of the online output on `next_state` and read that
entry of the target output on `next_state`; the target is
`reward + (1 - done) * gamma * next_Q`. -/
def tdTargetList (gamma : ℚ) (qon qtar : List ℚ → List ℚ) :
    List ℚ → List (List ℚ) → List Bool → List ℚ
  | r :: rs, ns :: nss, d :: ds =>
    (r + (1 - if d then (1 : ℚ) else 0) * gamma *
      ((qtar ns).getD (argmaxIdx (qon ns)) 0)) ::
      tdTargetList gamma qon qtar rs nss ds
  | _, _, _ => []

/-- Model of `Ship.td_target` on a batch: online network selects, target network
evaluates. -/
def Ship.tdTarget (ev : List ℚ → List ℚ → List ℚ) (a : Ship)
    (rewards : List ℚ) (nextStates : List (List ℚ)) (dones : List Bool) :
    List ℚ :=
  tdTargetList a.gamma (ev a.net.onlineValues) (ev a.net.targetValues)
    rewards nextStates dones

/-- One term of `torch.nn.SmoothL1Loss` (beta = 1). -/
def smoothL1One (x y : ℚ) : ℚ :=
  let d := |x - y|
  if d < 1 then d ^ 2 / 2 else d - 1 / 2

/-- Model of `torch.nn.SmoothL1Loss` with mean reduction. -/
def smoothL1Loss (xs ys : List ℚ) : ℚ :=
  (List.zipWith smoothL1One xs ys).sum / (xs.length : ℚ)

/-- Mean of a list (as `tensor.mean()`). -/
def listMean (xs : List ℚ) : ℚ :=
  xs.sum / (xs.length : ℚ)

/-- One pass of `loss.backward(); optimizer.step()` over a parameter list,
starting at parameter index `i`: Adam updates exactly the parameters that
carry a gradient, i.e. those with `requires_grad = True`; the per-parameter
update amount is the oracle `upd`. -/
def stepParamsFrom (upd : Nat → ℚ) : Nat → List ParamTensor → List ParamTensor
  | _, [] => []
  | i, p :: ps =>
    (if p.requiresGrad then
      { value := p.value - upd i, requiresGrad := p.requiresGrad }
    else p) :: stepParamsFrom upd (i + 1) ps

/-- Model of `optimizer.step()` on the optimizer built over `self.net.parameters()`
(the online parameters followed by the target parameters). -/
def ShipNet.applyStep (upd : Nat → ℚ) (n : ShipNet) : ShipNet :=
  let stepped := stepParamsFrom upd 0 (n.online ++ n.target)
  { online := stepped.take n.online.length
    target := stepped.drop n.online.length }

/-- Model of `Ship.update_Q_online`: compute the smooth-L1 loss between estimate and
target, backpropagate, and take one optimizer step; returns the loss. -/
def Ship.updateQOnline (upd : Nat → ℚ) (a : Ship) (tdEst tdTgt : List ℚ) :
    ShipNet × ℚ :=
  (a.net.applyStep upd, smoothL1Loss tdEst tdTgt)

/-- Model of `Ship.sync_Q_target`:
`self.net.target.load_state_dict(self.net.online.state_dict())` — copy the
online values into the target tensors (which keep their own
`requires_grad` flags). -/
def Ship.syncQTarget (n : ShipNet) : ShipNet :=
  { n with
    target := (n.online.zip n.target).map
      (fun p => { value := p.1.value, requiresGrad := p.2.requiresGrad }) }

/-- The network after step 1 of `Ship.learn`: synced when `curr_step` is a
multiple of `sync_every`, untouched otherwise. -/
def Ship.learnSyncNet (a : Ship) : ShipNet :=
  if a.currStep % a.syncEvery = 0 then Ship.syncQTarget a.net else a.net

/-- Model of `Ship.learn`: hard-sync check, burn-in and cadence gating, then sample,
TD estimate, double-DQN TD target, loss and one optimizer step. `idxs`
models the sampling randomness and `upd` the gradient-step magnitudes. -/
def Ship.learn (ev : List ℚ → List ℚ → List ℚ) (upd : Nat → ℚ)
    (idxs : List Nat) (a : Ship) :
    Except String (Ship × Option ℚ × Option ℚ) :=
  let a1 : Ship := { a with net := Ship.learnSyncNet a }
  if a.currStep < a.burnIn then Except.ok (a1, none, none)
  else if a.currStep % a.learnEvery ≠ 0 then Except.ok (a1, none, none)
  else
    match Ship.recall a1 idxs with
    | Except.error e => Except.error e
    | Except.ok batch =>
      let tdEst := Ship.tdEstimate ev a1 batch.states batch.actions
      let tdTgt := Ship.tdTarget ev a1 batch.rewards batch.nextStates batch.dones
      let stepped := Ship.updateQOnline upd a1 tdEst tdTgt
      let q := listMean tdEst
      let a2 : Ship :=
        { a1 with net := stepped.1, loss := stepped.2, Q := some q }
      Except.ok (a2, some q, some stepped.2)

/-- The checkpoint dictionary written by `Ship.save` (`torch.save(dict(...))`).
The network `state_dict` holds the online and the target parameter values. -/
structure Checkpoint where
  netOnline : List ℚ
  netTarget : List ℚ
  explorationRate : ℚ
  explorationRateDecay : ℚ
  explorationRateMin : ℚ
  saveEvery : Nat
  batchSize : Nat
  gamma : ℚ
  lr : ℚ
  burnIn : Nat
  learnEvery : Nat
  syncEvery : Nat
  currStep : Nat
  memory : List Transition
deriving DecidableEq, Repr

/-- The checkpoint path built by `Ship.save` (contains the step counter). -/
def Ship.savePath (a : Ship) : String :=
  a.saveDir ++ "/space-invaders_net_" ++ toString a.currStep ++ ".chkpt"

/-- Model of `Ship.save`: serialize parameters, hyperparameters, the step counter
and the replay memory. -/
def Ship.save (a : Ship) : Checkpoint :=
  { netOnline := a.net.onlineValues
    netTarget := a.net.targetValues
    explorationRate := a.explorationRate
    explorationRateDecay := a.explorationRateDecay
    explorationRateMin := a.explorationRateMin
    saveEvery := a.saveEvery
    batchSize := a.batchSize
    gamma := a.gamma
    lr := a.lr
    burnIn := a.burnIn
    learnEvery := a.learnEvery
    syncEvery := a.syncEvery
    currStep := a.currStep
    memory := a.memory }

/-- Model of `net.load_state_dict(checkpoint[net])`: copy the stored values into the
existing tensors, which keep their `requires_grad` flags. -/
def ShipNet.loadStateDict (n : ShipNet) (onv tg : List ℚ) : ShipNet :=
  { online := (onv.zip n.online).map
      (fun p => { value := p.1, requiresGrad := p.2.requiresGrad })
    target := (tg.zip n.target).map
      (fun p => { value := p.1, requiresGrad := p.2.requiresGrad }) }

/-- Model of `Ship.load`: restore the network, the hyperparameters, the step counter
and the memory from a checkpoint, and rebuild the Adam optimizer with the
checkpoint's learning rate. (The `lr` attribute itself is not reassigned by
`load`.) -/
def Ship.load (a : Ship) (c : Checkpoint) : Ship :=
  { a with
    net := a.net.loadStateDict c.netOnline c.netTarget
    explorationRate := c.explorationRate
    explorationRateDecay := c.explorationRateDecay
    explorationRateMin := c.explorationRateMin
    saveEvery := c.saveEvery
    batchSize := c.batchSize
    gamma := c.gamma
    optimizerLr := c.lr
    burnIn := c.burnIn
    learnEvery := c.learnEvery
    syncEvery := c.syncEvery
    currStep := c.currStep
    memory := c.memory }

/-! Concrete instances used in the example instantiations. -/

/-- A small concrete network (as produced by `ShipNet.init 4 84 84 6 [1, 2]`). -/
def sampleNet : ShipNet :=
  { online := [⟨1, true⟩, ⟨2, true⟩]
    target := [⟨1, false⟩, ⟨2, false⟩] }

/-- A concrete agent carrying the default hyperparameters of `Ship.__init__`. -/
def sampleShip : Ship :=
  { stateDim := (4, 84, 84)
    actionDim := 6
    saveDir := "checkpoints"
    lr := 1 / 4000
    net := sampleNet
    explorationRate := 1
    explorationRateDecay := 99999975 / 100000000
    explorationRateMin := 1 / 10
    currStep := 0
    saveEvery := 500000
    memory := []
    batchSize := 32
    Q := none
    gamma := 9 / 10
    loss := 0
    optimizerLr := 1 / 4000
    burnIn := 10000
    learnEvery := 3
    syncEvery := 10000 }

/-- An agent whose exploration rate sits below the configured floor. -/
def lowRateShip : Ship :=
  { sampleShip with explorationRate := 1 / 20 }

/-! Helper lemmas. -/

/-- Copying values pairwise over a zip of equal-length parameter lists
reproduces the source values. -/
theorem zip_copy_values (xs ys : List ParamTensor) (h : ys.length = xs.length) :
    ((xs.zip ys).map
        (fun p => ({ value := p.1.value, requiresGrad := p.2.requiresGrad } :
          ParamTensor))).map (·.value)
      = xs.map (·.value) := by
  induction xs generalizing ys with
  | nil => simp
  | cons x xs ih =>
    cases ys with
    | nil => simp at h
    | cons y ys =>
      simp only [List.zip_cons_cons, List.map_cons, List.cons.injEq, true_and]
      exact ih ys (by simpa using h)

/-! Claim theorems. -/

/-- Claim C2: `learn` returns `(None, None)` — with no sampling and no
parameter update beyond step 1 — whenever `curr_step < burn_in`, and also
whenever `curr_step mod learn_every ≠ 0`; the sync check runs before both
early returns, so the returned agent's network carries the hard sync
whenever `curr_step mod sync_every = 0`, even during burn-in. -/
theorem learn_early_return (ev : List ℚ → List ℚ → List ℚ) (upd : Nat → ℚ)
    (idxs : List Nat) (a : Ship)
    (h : a.currStep < a.burnIn ∨ a.currStep % a.learnEvery ≠ 0) :
    Ship.learn ev upd idxs a
        = Except.ok ({ a with net := Ship.learnSyncNet a }, none, none) ∧
      (a.currStep % a.syncEvery = 0 →
        Ship.learnSyncNet a = Ship.syncQTarget a.net) := by
  constructor
  · unfold Ship.learn
    rcases h with h | h
    · simp [h]
    · by_cases hb : a.currStep < a.burnIn
      · simp [hb]
      · simp [hb, h]
  · intro hs
    simp [Ship.learnSyncNet, hs]

/-- Example instantiation of `learn_early_return` at a concrete agent. -/
theorem learn_early_return_witness :
    Ship.learn (fun _ _ => []) (fun _ => 0) [] sampleShip
      = Except.ok ({ sampleShip with net := Ship.learnSyncNet sampleShip },
          none, none) :=
  (learn_early_return (fun _ _ => []) (fun _ => 0) [] sampleShip
    (Or.inl (by decide))).1

/-- Claim C3: when `learn` is entered with `curr_step mod sync_every = 0`,
the network after step 1 has its target parameter values bit-for-bit equal
to the online parameter values (wholesale overwrite, no averaging), and the
online parameters themselves are untouched by the sync. -/
theorem sync_copies_online (a : Ship)
    (hsync : a.currStep % a.syncEvery = 0)
    (hlen : a.net.target.length = a.net.online.length) :
    (Ship.learnSyncNet a).target.map (·.value)
        = a.net.online.map (·.value) ∧
      (Ship.learnSyncNet a).online = a.net.online := by
  have hdef : Ship.learnSyncNet a = Ship.syncQTarget a.net := by
    simp [Ship.learnSyncNet, hsync]
  rw [hdef]
  exact ⟨zip_copy_values a.net.online a.net.target hlen, rfl⟩

/-- Example instantiation of `sync_copies_online` at a concrete agent. -/
theorem sync_copies_online_witness :
    (Ship.learnSyncNet sampleShip).target.map (·.value)
      = sampleShip.net.online.map (·.value) :=
  (sync_copies_online sampleShip (by decide) (by decide)).1

/-- Claim C4 (amended): after every `act` call, regardless of branch, the
exploration rate equals `max(exploration_rate_min, e * exploration_rate_decay)`
— hence it never drops below the floor — and `curr_step` increments by
exactly 1; moreover the rate does not rise provided the decay is at most 1
and the pre-call rate is at least the (nonnegative) floor. -/
theorem act_rate_update (a : Ship) (u : ℚ) (randA : Nat)
    (ev : List ℚ → List ℚ → List ℚ) (s : List ℚ) :
    (Ship.act a u randA ev s).1.explorationRate
        = max a.explorationRateMin (a.explorationRate * a.explorationRateDecay) ∧
      a.explorationRateMin ≤ (Ship.act a u randA ev s).1.explorationRate ∧
      (Ship.act a u randA ev s).1.currStep = a.currStep + 1 ∧
      (a.explorationRateDecay ≤ 1 → 0 ≤ a.explorationRateMin →
        a.explorationRateMin ≤ a.explorationRate →
        (Ship.act a u randA ev s).1.explorationRate ≤ a.explorationRate) := by
  have hrate : (Ship.act a u randA ev s).1.explorationRate
      = max a.explorationRateMin (a.explorationRate * a.explorationRateDecay) :=
    rfl
  refine ⟨hrate, ?_, rfl, ?_⟩
  · rw [hrate]
    exact le_max_left _ _
  · intro hd hm0 hme
    rw [hrate]
    have he0 : 0 ≤ a.explorationRate := le_trans hm0 hme
    exact max_le hme (mul_le_of_le_one_right he0 hd)

/-- Example instantiation of `act_rate_update` at a concrete agent. -/
theorem act_rate_update_witness :
    (Ship.act sampleShip 0 0 (fun _ _ => []) []).1.explorationRate
      ≤ sampleShip.explorationRate :=
  (act_rate_update sampleShip 0 0 (fun _ _ => []) []).2.2.2
    (by norm_num [sampleShip]) (by norm_num [sampleShip])
    (by norm_num [sampleShip])

/-- Claim C4, counterexample to the claim as stated: when the exploration
rate sits below the floor, a single `act` call raises it — the rate does
not "never rise". -/
theorem act_rate_rises :
    lowRateShip.explorationRate
      < (Ship.act lowRateShip 0 0 (fun _ _ => []) []).1.explorationRate := by
  have h : (Ship.act lowRateShip 0 0 (fun _ _ => []) []).1.explorationRate
      = max (1 / 10 : ℚ) (1 / 20 * (99999975 / 100000000)) := rfl
  rw [h, max_eq_left (by norm_num)]
  norm_num [lowRateShip, sampleShip]

/-- Claim C10: whenever `act` takes the explore branch (`u` below the
exploration rate), the reported `action_values` is the fixed constant 1×6
matrix of ones — independent of the input state and of `action_dim` — and
the returned action is the drawn random integer, which lies in
`[0, action_dim)`. -/
theorem act_explore_sentinel (a : Ship) (u : ℚ) (randA : Nat)
    (ev : List ℚ → List ℚ → List ℚ) (s : List ℚ)
    (hu : u < a.explorationRate) (hr : randA < a.actionDim) :
    (Ship.act a u randA ev s).2.2 = [[(1 : ℚ), 1, 1, 1, 1, 1]] ∧
      (Ship.act a u randA ev s).2.1 = randA ∧
      (Ship.act a u randA ev s).2.1 < a.actionDim := by
  have h2 : (Ship.act a u randA ev s).2 = (randA, [[(1 : ℚ), 1, 1, 1, 1, 1]]) := by
    simp [Ship.act, hu]
  refine ⟨by rw [h2], by rw [h2], ?_⟩
  rw [h2]
  exact hr

/-- Example instantiation of `act_explore_sentinel` with `action_dim = 3`. -/
theorem act_explore_sentinel_witness :
    (Ship.act { sampleShip with actionDim := 3 } 0 2 (fun _ _ => []) []).2.2
        = [[(1 : ℚ), 1, 1, 1, 1, 1]] ∧
      (Ship.act { sampleShip with actionDim := 3 } 0 2 (fun _ _ => []) []).2.1
        = 2 ∧
      (Ship.act { sampleShip with actionDim := 3 } 0 2 (fun _ _ => []) []).2.1
        < 3 :=
  act_explore_sentinel { sampleShip with actionDim := 3 } 0 2 (fun _ _ => []) []
    (by norm_num [sampleShip]) (by norm_num [sampleShip])

/-- Reinstalling a parameter list's own values over itself is the
identity. -/
theorem zip_values_map_self (xs : List ParamTensor) :
    ((xs.map (·.value)).zip xs).map
        (fun p => ({ value := p.1, requiresGrad := p.2.requiresGrad } :
          ParamTensor))
      = xs := by
  induction xs with
  | nil => rfl
  | cons x xs ih =>
    cases x
    simp only [List.map_cons, List.zip_cons_cons, List.cons.injEq, true_and]
    exact ih

/-- Applying `load_state_dict` with a network's own `state_dict` restores the
network exactly. -/
theorem loadStateDict_self (n : ShipNet) :
    n.loadStateDict n.onlineValues n.targetValues = n := by
  cases n with
  | mk online target =>
    simp only [ShipNet.loadStateDict, ShipNet.onlineValues,
      ShipNet.targetValues, ShipNet.mk.injEq]
    exact ⟨zip_values_map_self online, zip_values_map_self target⟩

/-- Claim C7: `save` followed by `load` of the produced checkpoint restores
the step counter, every hyperparameter, the network parameters and the
replay memory to their pre-save values, and the rebuilt optimizer carries
the checkpoint's (restored) learning rate. -/
theorem save_load_roundtrip (a : Ship) :
    Ship.load a (Ship.save a) = { a with optimizerLr := a.lr } ∧
      (Ship.load a (Ship.save a)).currStep = a.currStep ∧
      (Ship.load a (Ship.save a)).explorationRate = a.explorationRate ∧
      (Ship.load a (Ship.save a)).explorationRateDecay
        = a.explorationRateDecay ∧
      (Ship.load a (Ship.save a)).explorationRateMin = a.explorationRateMin ∧
      (Ship.load a (Ship.save a)).saveEvery = a.saveEvery ∧
      (Ship.load a (Ship.save a)).batchSize = a.batchSize ∧
      (Ship.load a (Ship.save a)).gamma = a.gamma ∧
      (Ship.load a (Ship.save a)).lr = a.lr ∧
      (Ship.load a (Ship.save a)).burnIn = a.burnIn ∧
      (Ship.load a (Ship.save a)).learnEvery = a.learnEvery ∧
      (Ship.load a (Ship.save a)).syncEvery = a.syncEvery ∧
      (Ship.load a (Ship.save a)).memory = a.memory ∧
      (Ship.load a (Ship.save a)).net = a.net ∧
      (Ship.load a (Ship.save a)).optimizerLr = (Ship.save a).lr := by
  have hload : Ship.load a (Ship.save a) = { a with optimizerLr := a.lr } := by
    simp only [Ship.load, Ship.save, loadStateDict_self]
  rw [hload]
  refine ⟨rfl, rfl, rfl, rfl, rfl, rfl, rfl, rfl, rfl, rfl, rfl, rfl, rfl,
    rfl, rfl⟩

/-- Claim C9: constructing the network fails (with the shape
`ValueError`) exactly when the input height or width differs from 84; the
check lives in the constructor only — `forward` evaluates unconditionally
on every input. -/
theorem shipNet_init_shape_check (c h w d : Nat) (vals : List ℚ) :
    ((h ≠ 84 ∨ w ≠ 84) ↔ ∃ e, ShipNet.init c h w d vals = Except.error e) ∧
      (∀ n, ShipNet.init c h w d vals = Except.ok n →
        ∀ ev input, ShipNet.forward n "online" ev input
            = some (ev n.onlineValues input) ∧
          ShipNet.forward n "target" ev input
            = some (ev n.targetValues input)) := by
  constructor
  · constructor
    · intro hne
      unfold ShipNet.init
      by_cases hh : h = 84
      · have hw : w ≠ 84 := by
          rcases hne with h1 | h1
          · exact absurd hh h1
          · exact h1
        refine ⟨"Expecting input width: 84, got: " ++ toString w, ?_⟩
        simp [hh, hw]
      · refine ⟨"Expecting input height: 84, got: " ++ toString h, ?_⟩
        simp [hh]
    · rintro ⟨e, he⟩
      by_contra hcon
      push_neg at hcon
      obtain ⟨h84, w84⟩ := hcon
      rw [ShipNet.init] at he
      simp [h84, w84] at he
  · intro n _ ev input
    exact ⟨by simp [ShipNet.forward], by simp [ShipNet.forward]⟩

/-- Example instantiation of `shipNet_init_shape_check`: width 85 is
rejected at construction; a constructed network evaluates `forward`
without any shape check. -/
theorem shipNet_init_shape_check_witness :
    (∃ e, ShipNet.init 4 84 85 6 [1, 2] = Except.error e) ∧
      ShipNet.forward sampleNet "online" (fun _ _ => [0]) [] = some [0] :=
  ⟨(shipNet_init_shape_check 4 84 85 6 [1, 2]).1.mp (by norm_num),
    ((shipNet_init_shape_check 4 84 84 6 [1, 2]).2 sampleNet rfl
      (fun _ _ => [0]) []).1⟩

/-- Index formula for the row-wise double-DQN target list. -/
theorem tdTargetList_getD (gamma : ℚ) (qon qtar : List ℚ → List ℚ)
    (rs : List ℚ) (nss : List (List ℚ)) (ds : List Bool) :
    ∀ i : Nat, i < rs.length → i < nss.length → i < ds.length →
      (tdTargetList gamma qon qtar rs nss ds).getD i 0
        = rs.getD i 0 + (1 - if ds.getD i false then (1 : ℚ) else 0) * gamma *
            ((qtar (nss.getD i [])).getD (argmaxIdx (qon (nss.getD i []))) 0) := by
  induction rs generalizing nss ds with
  | nil =>
    intro i h1 _ _
    simp at h1
  | cons r rs ih =>
    intro i h1 h2 h3
    cases nss with
    | nil => simp at h2
    | cons ns nss =>
      cases ds with
      | nil => simp at h3
      | cons d ds =>
        cases i with
        | zero => simp [tdTargetList]
        | succ i =>
          simp only [tdTargetList, List.getD_cons_succ]
          exact ih nss ds i (by simpa using h1) (by simpa using h2)
            (by simpa using h3)

/-- Claim C1: for every sampled batch, the double-DQN target of each
transition equals
`reward + (1 - done) * gamma * Q_target(next_state, best_action)`, where
`best_action` is the argmax of the online network's output on `next_state`
and its value is read from the target network's output on `next_state`;
in particular a terminal transition's target is exactly its reward,
independent of gamma and of the network outputs. -/
theorem tdTarget_formula (ev : List ℚ → List ℚ → List ℚ) (a : Ship)
    (rs : List ℚ) (nss : List (List ℚ)) (ds : List Bool) (i : Nat)
    (h1 : i < rs.length) (h2 : i < nss.length) (h3 : i < ds.length) :
    (Ship.tdTarget ev a rs nss ds).getD i 0
        = rs.getD i 0 + (1 - if ds.getD i false then (1 : ℚ) else 0) * a.gamma *
            ((ev a.net.targetValues (nss.getD i [])).getD
              (argmaxIdx (ev a.net.onlineValues (nss.getD i []))) 0) ∧
      (ds.getD i false = true →
        (Ship.tdTarget ev a rs nss ds).getD i 0 = rs.getD i 0) := by
  have key := tdTargetList_getD a.gamma (ev a.net.onlineValues)
    (ev a.net.targetValues) rs nss ds i h1 h2 h3
  refine ⟨key, ?_⟩
  intro hd
  rw [Ship.tdTarget] at *
  rw [key, hd]
  norm_num

/-- Example instantiation of `tdTarget_formula`: a terminal transition's
target equals its reward. -/
theorem tdTarget_formula_witness :
    (Ship.tdTarget (fun _ _ => [5, 7]) sampleShip [3] [[0]] [true]).getD 0 0
      = 3 :=
  (tdTarget_formula (fun _ _ => [5, 7]) sampleShip [3] [[0]] [true] 0
    (by decide) (by decide) (by decide)).2 rfl

/-- Lemma: `stepParamsFrom` preserves the length of the parameter list. -/
theorem stepParamsFrom_length (upd : Nat → ℚ) :
    ∀ (i : Nat) (ps : List ParamTensor),
      (stepParamsFrom upd i ps).length = ps.length := by
  intro i ps
  induction ps generalizing i with
  | nil => rfl
  | cons p ps ih => simp [stepParamsFrom, ih]

/-- Lemma: `stepParamsFrom` distributes over appended parameter lists, with the
index offset by the length of the first list. -/
theorem stepParamsFrom_append (upd : Nat → ℚ) (xs ys : List ParamTensor) :
    ∀ i : Nat, stepParamsFrom upd i (xs ++ ys)
      = stepParamsFrom upd i xs ++ stepParamsFrom upd (i + xs.length) ys := by
  induction xs with
  | nil => intro i; simp [stepParamsFrom]
  | cons x xs ih =>
    intro i
    simp only [List.cons_append, stepParamsFrom, List.length_cons,
      List.cons.injEq, true_and, List.append_eq]
    rw [ih (i + 1), show i + (xs.length + 1) = i + 1 + xs.length from by omega]

/-- A parameter list whose tensors all have `requires_grad = False`
receives no update from the optimizer step. -/
theorem stepParamsFrom_frozen (upd : Nat → ℚ) :
    ∀ (i : Nat) (ps : List ParamTensor),
      (∀ p ∈ ps, p.requiresGrad = false) → stepParamsFrom upd i ps = ps := by
  intro i ps
  induction ps generalizing i with
  | nil => intro _; rfl
  | cons p ps ih =>
    intro hps
    have hp : p.requiresGrad = false := hps p (List.mem_cons_self p ps)
    simp only [stepParamsFrom, hp, Bool.false_eq_true, if_false,
      List.cons.injEq, true_and]
    exact ih (i + 1) (fun q hq => hps q (List.mem_cons_of_mem p hq))

/-- Claim C8: for a network built by the constructor, every target
parameter is frozen (`requires_grad = False`), so the optimizer step of
`update_Q_online` leaves the target parameters unchanged and acts on the
online parameters alone. -/
theorem optimizer_step_frame (c h w d : Nat) (vals : List ℚ) (n : ShipNet)
    (upd : Nat → ℚ) (hn : ShipNet.init c h w d vals = Except.ok n) :
    (∀ p ∈ n.target, p.requiresGrad = false) ∧
      (n.applyStep upd).target = n.target ∧
      (n.applyStep upd).online = stepParamsFrom upd 0 n.online := by
  have hflags : ∀ p ∈ n.target, p.requiresGrad = false := by
    unfold ShipNet.init at hn
    by_cases hh : h = 84
    · by_cases hw : w = 84
      · simp only [hh, hw, ne_eq, not_true_eq_false, if_false,
          Except.ok.injEq] at hn
        subst hn
        intro p hp
        simp only [List.mem_map] at hp
        obtain ⟨v, _, rfl⟩ := hp
        rfl
      · simp [hh, hw] at hn
    · simp [hh] at hn
  have happ : stepParamsFrom upd 0 (n.online ++ n.target)
      = stepParamsFrom upd 0 n.online ++ n.target := by
    rw [stepParamsFrom_append upd n.online n.target 0,
      stepParamsFrom_frozen upd (0 + n.online.length) n.target hflags]
  refine ⟨hflags, ?_, ?_⟩
  · show (stepParamsFrom upd 0 (n.online ++ n.target)).drop n.online.length
      = n.target
    rw [happ]
    exact List.drop_left' (stepParamsFrom_length upd 0 n.online)
  · show (stepParamsFrom upd 0 (n.online ++ n.target)).take n.online.length
      = stepParamsFrom upd 0 n.online
    rw [happ]
    exact List.take_left' (stepParamsFrom_length upd 0 n.online)

/-- Example instantiation of `optimizer_step_frame`: a gradient step on the
sample network leaves its target parameters untouched. -/
theorem optimizer_step_frame_witness :
    (ShipNet.applyStep (fun _ => 1) sampleNet).target = sampleNet.target :=
  (optimizer_step_frame 4 84 84 6 [1, 2] sampleNet (fun _ => 1) rfl).2.1

/-- Folding `deque.append` over a push sequence keeps exactly the most
recent `cap` elements, in insertion order. -/
theorem foldl_dequeAppend_eq (cap : Nat) (hcap : 0 < cap) :
    ∀ (ts mem : List Transition), mem.length ≤ cap →
      ts.foldl (dequeAppend cap) mem
        = (mem ++ ts).drop (mem.length + ts.length - cap) := by
  intro ts
  induction ts with
  | nil =>
    intro mem hmem
    simp [Nat.sub_eq_zero_of_le hmem]
  | cons t ts ih =>
    intro mem hmem
    rw [List.foldl_cons]
    by_cases hfull : mem.length < cap
    · have h1 : dequeAppend cap mem t = mem ++ [t] := by
        simp [dequeAppend, hfull]
      have hlen1 : (mem ++ [t]).length ≤ cap := by
        simp only [List.length_append, List.length_singleton]
        omega
      rw [h1, ih (mem ++ [t]) hlen1]
      have e0 : (mem ++ [t]).length + ts.length - cap
          = mem.length + (t :: ts).length - cap := by
        simp only [List.length_append, List.length_singleton, List.length_cons,
          List.length_nil]
        omega
      rw [e0, show mem ++ [t] ++ ts = mem ++ t :: ts from by
        rw [List.append_assoc, List.singleton_append]]
    · have hlen : mem.length = cap := le_antisymm hmem (le_of_not_lt hfull)
      have h1 : dequeAppend cap mem t = mem.drop 1 ++ [t] := by
        simp [dequeAppend, hfull]
      cases mem with
      | nil =>
        simp only [List.length_nil] at hlen
        omega
      | cons m mem' =>
        have hc : mem'.length + 1 = cap := by simpa using hlen
        have hm1 : List.drop 1 (m :: mem') ++ [t] = mem' ++ [t] := by
          simp
        have hlen1 : (mem' ++ [t]).length ≤ cap := by
          simp only [List.length_append, List.length_singleton]
          omega
        rw [h1, hm1, ih (mem' ++ [t]) hlen1]
        rw [show mem' ++ [t] ++ ts = mem' ++ t :: ts from by
          rw [List.append_assoc, List.singleton_append]]
        have e1 : (mem' ++ [t]).length + ts.length - cap = ts.length := by
          simp only [List.length_append, List.length_singleton]
          omega
        have e2 : (m :: mem').length + (t :: ts).length - cap
            = ts.length + 1 := by
          simp only [List.length_cons, List.length_nil]
          omega
        rw [e1, e2, List.cons_append, List.drop_succ_cons]

/-- The memory after `cacheAll` is the fold of the capacity-1000 deque
append over the push sequence. -/
theorem cacheAll_memory (a : Ship) (ts : List Transition) :
    (Ship.cacheAll a ts).memory = ts.foldl (dequeAppend 1000) a.memory := by
  induction ts generalizing a with
  | nil => rfl
  | cons t ts ih =>
    show (Ship.cacheAll (Ship.cache a t) ts).memory = _
    rw [ih (Ship.cache a t)]
    rfl

/-- Claim C5: the replay memory is a fixed-capacity FIFO of capacity 1000:
starting from any in-capacity state, after any push sequence the memory is
exactly the most recent 1000 (or fewer) entries in insertion order — so
pushing `1000 + k` transitions into an empty buffer keeps `ts.drop k` —
and its size never exceeds 1000. -/
theorem replay_buffer_fifo (a : Ship) (ts : List Transition)
    (hmem : a.memory.length ≤ 1000) :
    (Ship.cacheAll a ts).memory
        = (a.memory ++ ts).drop (a.memory.length + ts.length - 1000) ∧
      (Ship.cacheAll a ts).memory.length ≤ 1000 ∧
      (a.memory = [] →
        (Ship.cacheAll a ts).memory = ts.drop (ts.length - 1000)) := by
  have h := foldl_dequeAppend_eq 1000 (by norm_num) ts a.memory hmem
  rw [cacheAll_memory, h]
  refine ⟨rfl, ?_, ?_⟩
  · rw [List.length_drop, List.length_append]
    omega
  · intro hempty
    rw [hempty]
    simp

/-- Example instantiation of `replay_buffer_fifo` at a concrete agent. -/
theorem replay_buffer_fifo_witness :
    (Ship.cacheAll sampleShip [default, default]).memory
      = (sampleShip.memory ++ [default, default]).drop
          (sampleShip.memory.length + 2 - 1000) :=
  (replay_buffer_fifo sampleShip [default, default] (by decide)).1

/-- The index list `sampleIndices` produces is always a valid
without-replacement draw once the population is large enough. -/
theorem sampleIndices_spec (n k : Nat) (idxs : List Nat) (hk : k ≤ n) :
    (sampleIndices n k idxs).Nodup ∧ (sampleIndices n k idxs).length = k ∧
      ∀ j ∈ sampleIndices n k idxs, j < n := by
  unfold sampleIndices
  split
  · next hvalid => exact ⟨hvalid.2.1, hvalid.1, hvalid.2.2⟩
  · exact ⟨List.nodup_range k, List.length_range k,
      fun j hj => lt_of_lt_of_le (List.mem_range.mp hj) hk⟩

/-- Claim C6: sampling fails (the `ValueError` of `random.sample`) when
the memory holds fewer than `batch_size` transitions; with at least
`batch_size` transitions it returns exactly `batch_size` stored
transitions at pairwise-distinct positions (without replacement), stacked
per field. -/
theorem recall_sample_spec (a : Ship) (idxs : List Nat) :
    (a.memory.length < a.batchSize →
      ∃ e, Ship.recall a idxs = Except.error e) ∧
      (a.batchSize ≤ a.memory.length →
        ∃ js : List Nat, js.Nodup ∧ js.length = a.batchSize ∧
          (∀ j ∈ js, j < a.memory.length) ∧
          Ship.recall a idxs
            = Except.ok (stackBatch
                (js.map (fun j => a.memory.getD j default)))) := by
  constructor
  · intro hlt
    refine ⟨"Sample larger than population or is negative", ?_⟩
    unfold Ship.recall randomSample
    rw [if_neg (by omega)]
    rfl
  · intro hle
    obtain ⟨hnd, hlen, hbound⟩ :=
      sampleIndices_spec a.memory.length a.batchSize idxs hle
    refine ⟨sampleIndices a.memory.length a.batchSize idxs, hnd, hlen,
      hbound, ?_⟩
    unfold Ship.recall randomSample
    rw [if_pos hle]
    rfl

/-- A concrete agent with a three-element memory and batch size 2. -/
def recallShipOk : Ship :=
  { sampleShip with batchSize := 2, memory := [default, default, default] }

/-- A concrete agent with a three-element memory and batch size 5. -/
def recallShipErr : Ship :=
  { sampleShip with batchSize := 5, memory := [default, default, default] }

/-- Example instantiation of `recall_sample_spec`: a two-element batch
from a three-element memory succeeds; a five-element batch from it fails. -/
theorem recall_sample_spec_witness :
    (∃ e, Ship.recall recallShipErr [2, 0] = Except.error e) ∧
      (∃ js : List Nat, js.Nodup ∧ js.length = 2 ∧
        (∀ j ∈ js, j < 3) ∧
        Ship.recall recallShipOk [2, 0]
          = Except.ok (stackBatch (js.map (fun j =>
              recallShipOk.memory.getD j default)))) :=
  ⟨(recall_sample_spec recallShipErr [2, 0]).1 (by decide),
    (recall_sample_spec recallShipOk [2, 0]).2 (by decide)⟩

end SpaceInvaders
